import Mathlib

/-
Verification development for the interserve repository (Go).

Shallow embedding conventions:
- Go strings are Lean `String` (a structure holding a `List Char`); the Go
  standard-library helpers used by the code (`strings.TrimSpace`,
  `strings.TrimLeft(s, " \t")`, `strings.HasPrefix`, `strings.TrimPrefix`,
  `strings.Split(s, "\n")`, `strings.Join(l, "\n")`, `strings.ToLower`) are
  modelled below as `goTrimSpace`, `goTrimLeftSpaceTab`, `goStartsWith`,
  `goTrimLeading`, `goSplitNl`, `joinNl`, `goToLower`.  `goIsSpace` carries
  Go's `unicode.IsSpace` white-space set (the Unicode White_Space code
  points).  `goToLower` lower-cases the ASCII range; the code only ever
  compares the result against the ASCII literals "priority" and "context".
- Go non-negative `int` quantities (line counts, ids, totals) are `Nat`;
  Go integer division on non-negative operands is `Nat` floor division.
- Go `float64` confidence values are `ℚ`: the code only compares them with
  0 and 1 and clamps, operations with identical semantics on `ℚ`.
- Go maps are association lists with at-most-one binding per key
  (`mapGet` returns the Go zero value for an absent key, `mapSet` updates
  in place or appends); `time.Time` is `Int` (nanoseconds) and
  `time.Since t = now - t`; `os.Stat` is an explicit `String → Option Int`
  modification-time probe passed as a parameter.
-/

namespace Interserve

/-! ### Go string helpers -/

/-- Go `unicode.IsSpace`: the Unicode White_Space code points. -/
def goIsSpace (c : Char) : Bool :=
  c = ' ' || c = '\t' || c = '\n' || c = Char.ofNat 11 || c = Char.ofNat 12 ||
  c = '\r' || c = Char.ofNat 133 || c = Char.ofNat 160 || c = Char.ofNat 5760 ||
  (8192 ≤ c.toNat && c.toNat ≤ 8202) || c = Char.ofNat 8232 || c = Char.ofNat 8233 ||
  c = Char.ofNat 8239 || c = Char.ofNat 8287 || c = Char.ofNat 12288

/-- Go `strings.TrimSpace`. -/
def goTrimSpace (s : String) : String :=
  ⟨List.reverse (List.dropWhile goIsSpace (List.reverse (List.dropWhile goIsSpace s.data)))⟩

/-- Go `strings.TrimLeft(s, " \t")`. -/
def goTrimLeftSpaceTab (s : String) : String :=
  ⟨s.data.dropWhile (fun c => c = ' ' || c = '\t')⟩

/-- List-level starts-with test. -/
def listIsPre : List Char → List Char → Bool
  | [], _ => true
  | _ :: _, [] => false
  | a :: as, b :: bs => a = b && listIsPre as bs

/-- Go `strings.HasPrefix s p`. -/
def goStartsWith (s p : String) : Bool :=
  listIsPre p.data s.data

/-- Go `strings.TrimPrefix s p`. -/
def goTrimLeading (s p : String) : String :=
  if goStartsWith s p then ⟨s.data.drop p.data.length⟩ else s

/-- ASCII lower-casing of one character. -/
def asciiLower (c : Char) : Char :=
  if 'A' ≤ c && c ≤ 'Z' then Char.ofNat (c.toNat + 32) else c

/-- Go `strings.ToLower` (ASCII range; see header). -/
def goToLower (s : String) : String :=
  ⟨s.data.map asciiLower⟩

/-- Split a character list at newline characters (Go `strings.Split` with a
one-character separator never returns an empty list). -/
def charSplit : List Char → List (List Char)
  | [] => [[]]
  | c :: rest =>
    match charSplit rest with
    | [] => [[]]
    | h :: t => if c = '\n' then [] :: h :: t else (c :: h) :: t

/-- Go `strings.Split(s, "\n")`. -/
def goSplitNl (s : String) : List String :=
  (charSplit s.data).map (fun cs => ⟨cs⟩)

/-- Interleave newline characters between line character lists. -/
def charJoin : List (List Char) → List Char
  | [] => []
  | [x] => x
  | x :: y :: t => x ++ '\n' :: charJoin (y :: t)

/-- Go `strings.Join(l, "\n")`. -/
def joinNl (l : List String) : String :=
  ⟨charJoin (l.map (·.data))⟩

/-! ### Package extract (src/internal/extract/extract.go) -/

/-- `extract.Section`: a markdown slice rooted at a top-level `## ` heading. -/
structure Section where
  id : Nat
  heading : String
  body : String
  lineCount : Nat
  deriving Repr, DecidableEq

/-- `extract.splitLines`: split on newlines, except the empty document
yields no lines. -/
def splitLines (doc : String) : List String :=
  if doc = "" then [] else goSplitNl doc

/-- `extract.splitBodyLines`: identical to `splitLines` but applied to a
section body. -/
def splitBodyLines (body : String) : List String :=
  if body = "" then [] else goSplitNl body

/-- Scan for the first line trimming to `---` (the loop inside
`skipYAMLFrontmatter`); everything up to and including it is dropped, and
with no closer the whole remainder is dropped. -/
def findCloser : List String → List String
  | [] => []
  | x :: xs => if goTrimSpace x = "---" then xs else findCloser xs

/-- `extract.skipYAMLFrontmatter`. -/
def skipYAMLFrontmatter (lines : List String) : List String :=
  match lines with
  | [] => []
  | l0 :: rest =>
    if goTrimSpace l0 = "---" then findCloser rest else l0 :: rest

/-- `extract.fenceMarker`: returns the fence family marker opened or closed
by a line, or the empty string. -/
def fenceMarker (line : String) : String :=
  let trimmed := goTrimSpace line
  if goStartsWith trimmed "```" then "```"
  else if goStartsWith trimmed "~~~" then "~~~"
  else ""

/-- Fence-state transition of one non-heading line (the tail of the loop
body of `ExtractSections`): an opening marker of either family starts a
fence, and only the same family's marker closes it. -/
def stepFence (inFence : Bool) (fence : String) (line : String) : Bool × String :=
  let marker := fenceMarker (goTrimLeftSpaceTab line)
  if marker ≠ "" then
    if ¬ inFence then (true, marker)
    else if marker = fence then (false, "")
    else (inFence, fence)
  else (inFence, fence)

/-- Loop state of `ExtractSections`. -/
structure ExtState where
  sections : List Section
  nextID : Nat
  currentHeading : String
  currentBody : List String
  hasSeenHeading : Bool
  inFence : Bool
  fence : String

/-- The `emit` closure of `ExtractSections`: the preamble emission is
suppressed when its body is whitespace-only. -/
def emitSec (sections : List Section) (nextID : Nat) (heading : String)
    (bodyLines : List String) (isPreamble : Bool) : List Section × Nat :=
  let body := joinNl bodyLines
  if isPreamble = true ∧ goTrimSpace body = "" then (sections, nextID)
  else (sections ++ [⟨nextID, heading, body, bodyLines.length⟩], nextID + 1)

/-- One iteration of the `ExtractSections` line loop. -/
def extractStep (st : ExtState) (line : String) : ExtState :=
  let trimmedLeft := goTrimLeftSpaceTab line
  if st.inFence = false ∧ goStartsWith trimmedLeft "## " = true then
    let en := emitSec st.sections st.nextID st.currentHeading st.currentBody (!st.hasSeenHeading)
    { sections := en.1, nextID := en.2,
      currentHeading := goTrimSpace (goTrimLeading trimmedLeft "## "),
      currentBody := [], hasSeenHeading := true,
      inFence := st.inFence, fence := st.fence }
  else
    let fs := stepFence st.inFence st.fence line
    { st with currentBody := st.currentBody ++ [line], inFence := fs.1, fence := fs.2 }

/-- Initial loop state of `ExtractSections`. -/
def extInit : ExtState :=
  ⟨[], 1, "Preamble", [], false, false, ""⟩

/-- Final unconditional emission after the loop. -/
def extFinish (st : ExtState) : List Section :=
  (emitSec st.sections st.nextID st.currentHeading st.currentBody (!st.hasSeenHeading)).1

/-- The `ExtractSections` scan applied to an already-split line list. -/
def extractFromLines (lines : List String) : List Section :=
  extFinish (lines.foldl extractStep extInit)

/-- `extract.ExtractSections`. -/
def ExtractSections (doc : String) : List Section :=
  extractFromLines (skipYAMLFrontmatter (splitLines doc))

/-- Count of heading boundaries seen by the `ExtractSections` scan: lines
whose left-trimmed text starts with the `## ` prefix while the fence state
is clear, under the same fence transitions as the scan itself. -/
def countHeadings : Bool → String → List String → Nat
  | _, _, [] => 0
  | inF, f, l :: ls =>
    if inF = false ∧ goStartsWith (goTrimLeftSpaceTab l) "## " = true then
      1 + countHeadings inF f ls
    else
      let fs := stepFence inF f l
      countHeadings fs.1 fs.2 ls

/-- The lines preceding the first heading boundary of the scan (the
preamble body accumulated by `ExtractSections`). -/
def preLines : Bool → String → List String → List String
  | _, _, [] => []
  | inF, f, l :: ls =>
    if inF = false ∧ goStartsWith (goTrimLeftSpaceTab l) "## " = true then []
    else
      let fs := stepFence inF f l
      l :: preLines fs.1 fs.2 ls

/-- `extract.Section.Preview`. -/
def Section.Preview (s : Section) : String :=
  let lines := splitBodyLines s.body
  let count := lines.length
  if count = 0 then ""
  else if count ≤ 100 then joinNl (lines.take (min 50 count))
  else
    joinNl (lines.take 25) ++ "\n[... " ++ toString (count - 50) ++
      " lines omitted ...]\n" ++ joinNl (lines.drop (count - 25))

/-- Concrete 101-line body used to witness the preview boundary. -/
def previewDemoBody : String :=
  joinNl ((List.range 101).map (fun _ => "x"))

/-! ### Package classify (src/internal/classify: classify.go, prompt.go) -/

/-- Status constants of classify.go. -/
def statusSuccess : String := "success"

def statusNoClassification : String := "no_classification"

/-- `classify.AgentDomain`. -/
structure AgentDomain where
  name : String
  description : String
  deriving Repr, DecidableEq

/-- `classify.DefaultAgents`. -/
def DefaultAgents : List AgentDomain :=
  [⟨"fd-safety", "Safety, trust, policy risk, abuse, and compliance impact."⟩,
   ⟨"fd-correctness", "Functional correctness, invariants, and logic flaws."⟩,
   ⟨"fd-performance", "Latency, throughput, scaling, and resource efficiency."⟩,
   ⟨"fd-user-product", "User value, product behavior, and UX outcome quality."⟩,
   ⟨"fd-game-design", "Systems balance, mechanics, progression, and play quality."⟩]

/-- `classify.CrossCuttingAgents` (a Go set keyed by name). -/
def CrossCuttingAgents : List String :=
  ["fd-architecture", "fd-quality"]

/-- `classify.SectionAssignment`; the Go `float64` confidence is `ℚ`. -/
structure SectionAssignment where
  agent : String
  relevance : String
  confidence : ℚ
  deriving Repr, DecidableEq

/-- `classify.AgentSlice`. -/
structure AgentSlice where
  PrioritySections : List Nat
  ContextSections : List Nat
  TotalPriorityLines : Nat
  TotalContextLines : Nat
  deriving Repr, DecidableEq

/-- `classify.ClassifiedSection`. -/
structure ClassifiedSection where
  SectionID : Nat
  Heading : String
  LineCount : Nat
  Assignments : List SectionAssignment
  deriving Repr, DecidableEq

/-- The `map[string]AgentSlice` slicing map, as an association list with at
most one binding per key. -/
abbrev SliceMap := List (String × AgentSlice)

/-- `classify.ClassifyResult` (post-oracle shape built by `buildResult`). -/
structure ClassifyResult where
  Status : String
  Sections : List ClassifiedSection
  SlicingMap : SliceMap
  Error : String
  deriving Repr, DecidableEq

/-- Go map read: the zero `AgentSlice` for an absent key. -/
def mapGet (m : SliceMap) (k : String) : AgentSlice :=
  match m with
  | [] => ⟨[], [], 0, 0⟩
  | (k', v) :: rest => if k' = k then v else mapGet rest k

/-- Go map write: update the existing binding or add one. -/
def mapSet (m : SliceMap) (k : String) (v : AgentSlice) : SliceMap :=
  match m with
  | [] => [(k, v)]
  | (k', v') :: rest => if k' = k then (k, v) :: rest else (k', v') :: mapSet rest k v

/-- Effective roster: `DefaultAgents` replaces an empty caller roster. -/
def agentsOrDefault (agents : List AgentDomain) : List AgentDomain :=
  if agents.isEmpty then DefaultAgents else agents

/-- The `allowed` set of `buildResult`: configured roster names plus the
fixed cross-cutting names. -/
def allowedAgent (agents : List AgentDomain) (name : String) : Bool :=
  agents.any (fun ag => ag.name = name) || CrossCuttingAgents.contains name

/-- `classify.buildEmptySlicingMap` (the inner default fallback never fires
because `buildResult` already substituted the default roster). -/
def buildEmptySlicingMap (agents : List AgentDomain) : SliceMap :=
  agents.foldl (fun m ag => mapSet m ag.name ⟨[], [], 0, 0⟩) []

/-- `classify.normalizeAssignments`. -/
def normalizeAssignments (inA : List SectionAssignment) (allowed : String → Bool) :
    List SectionAssignment :=
  inA.filterMap (fun a =>
    let agent := goTrimSpace a.agent
    let relevance := goToLower (goTrimSpace a.relevance)
    if allowed agent = false then none
    else if relevance ≠ "priority" ∧ relevance ≠ "context" then none
    else
      let confidence := if a.confidence < 0 then 0 else if 1 < a.confidence then 1 else a.confidence
      some ⟨agent, relevance, confidence⟩)

/-- Aggregation state of the `buildResult` section loop: the slicing map
plus the `prioritySeen` / `contextSeen` dedup maps. -/
structure AggState where
  slicing : SliceMap
  pseen : String → Nat → Bool
  cseen : String → Nat → Bool

/-- Processing of one normalized assignment inside the section loop of
`buildResult` (the Go write-back `result.SlicingMap[agent] = slice` runs on
every iteration). -/
def aggAssign (lineCount sid : Nat) (st : AggState) (a : SectionAssignment) : AggState :=
  let slice := mapGet st.slicing a.agent
  if a.relevance = "priority" then
    if st.pseen a.agent sid = false then
      { slicing := mapSet st.slicing a.agent
          { slice with PrioritySections := slice.PrioritySections ++ [sid],
                       TotalPriorityLines := slice.TotalPriorityLines + lineCount },
        pseen := fun ag i => if ag = a.agent ∧ i = sid then true else st.pseen ag i,
        cseen := st.cseen }
    else { st with slicing := mapSet st.slicing a.agent slice }
  else
    if st.cseen a.agent sid = false then
      { slicing := mapSet st.slicing a.agent
          { slice with ContextSections := slice.ContextSections ++ [sid],
                       TotalContextLines := slice.TotalContextLines + lineCount },
        pseen := st.pseen,
        cseen := fun ag i => if ag = a.agent ∧ i = sid then true else st.cseen ag i }
    else { st with slicing := mapSet st.slicing a.agent slice }

/-- Processing of one section of the `buildResult` loop. -/
def aggSection (classified : Nat → List SectionAssignment) (allowed : String → Bool)
    (st : AggState) (s : Section) : AggState :=
  (normalizeAssignments (classified s.id) allowed).foldl (aggAssign s.lineCount s.id) st

/-- Aggregation over all sections, from the configured-roster empty map and
fresh seen maps. -/
def aggregate (classified : Nat → List SectionAssignment) (allowed : String → Bool)
    (sections : List Section) (agents : List AgentDomain) : AggState :=
  sections.foldl (aggSection classified allowed)
    ⟨buildEmptySlicingMap agents, fun _ _ => false, fun _ _ => false⟩

/-- Ascending insertion of `sort.Ints`. -/
def insertSorted (x : Nat) : List Nat → List Nat
  | [] => [x]
  | y :: ys => if x ≤ y then x :: y :: ys else y :: insertSorted x ys

/-- Ascending sort (`sort.Ints`; any correct sort of ints produces this
list). -/
def sortInts : List Nat → List Nat
  | [] => []
  | x :: xs => insertSorted x (sortInts xs)

/-- The per-slice sort applied after aggregation. -/
def sortSlice (v : AgentSlice) : AgentSlice :=
  { v with PrioritySections := sortInts v.PrioritySections,
           ContextSections := sortInts v.ContextSections }

/-- The sort loop over the whole slicing map. -/
def sortSlices (m : SliceMap) : SliceMap :=
  m.map (fun kv => (kv.1, sortSlice kv.2))

/-- The `totalLines` accumulation of the section loop. -/
def totalLineCount (sections : List Section) : Nat :=
  sections.foldl (fun acc s => acc + s.lineCount) 0

/-- The domain-mismatch guard test of `buildResult`:
`TotalPriorityLines*100/totalLines > 10` in Go integer arithmetic. -/
def clearsGuard (priorityLines totalLines : Nat) : Bool :=
  decide (10 < priorityLines * 100 / totalLines)

/-- The full-document collapse test of `buildResult`:
`TotalPriorityLines*100/totalLines >= 80` in Go integer arithmetic. -/
def collapses (priorityLines totalLines : Nat) : Bool :=
  decide (80 ≤ priorityLines * 100 / totalLines)

/-- The sorted aggregated slicing map that `buildResult` holds when it
reaches the guard. -/
def aggregateSorted (classified : Nat → List SectionAssignment) (sections : List Section)
    (agents0 : List AgentDomain) : SliceMap :=
  sortSlices (aggregate classified (allowedAgent (agentsOrDefault agents0)) sections
    (agentsOrDefault agents0)).slicing

/-- One step of the full-document collapse loop. -/
def collapseStep (allSectionIDs : List Nat) (totalLines : Nat) (m : SliceMap)
    (ag : AgentDomain) : SliceMap :=
  let slice := mapGet m ag.name
  if collapses slice.TotalPriorityLines totalLines = true then
    mapSet m ag.name ⟨allSectionIDs, [], totalLines, 0⟩
  else m

/-- `classify.buildResult`: the post-oracle decision core of `Classify`
(the Go single section loop is split into the `Sections` map and the
`aggregate` fold; both consume exactly the same normalized data). -/
def buildResult (classified : Nat → List SectionAssignment) (sections : List Section)
    (agents0 : List AgentDomain) : ClassifyResult :=
  let agents := agentsOrDefault agents0
  let allowed := allowedAgent agents
  let secsOut := sections.map (fun s =>
    ClassifiedSection.mk s.id s.heading s.lineCount (normalizeAssignments (classified s.id) allowed))
  let slicing := aggregateSorted classified sections agents0
  let totalLines := totalLineCount sections
  if totalLines = 0 then ⟨statusNoClassification, secsOut, slicing, ""⟩
  else if (agents.any (fun ag =>
      clearsGuard (mapGet slicing ag.name).TotalPriorityLines totalLines)) = false then
    ⟨statusNoClassification, secsOut, slicing,
      "domain mismatch: no agent has >10% priority lines"⟩
  else
    let allSectionIDs := sections.map (·.id)
    ⟨statusSuccess, secsOut, agents.foldl (collapseStep allSectionIDs totalLines) slicing, ""⟩

/-- Whether some assignment in a list targets agent `a` with relevance
label `lbl`. -/
def anyFor (A : List SectionAssignment) (a lbl : String) : Bool :=
  A.any (fun x => x.agent = a ∧ x.relevance = lbl)

/-- Whether some normalized assignment of a section sends it to agent `a`
with the given relevance label. -/
def hasLabel (classified : Nat → List SectionAssignment) (allowed : String → Bool)
    (a lbl : String) (s : Section) : Bool :=
  anyFor (normalizeAssignments (classified s.id) allowed) a lbl

/-- Sum of the line counts of a section list. -/
def sumLineCounts (l : List Section) : Nat :=
  (l.map (·.lineCount)).sum

/-- Effect of one section's inner assignment loop on one agent's slice:
the section id joins each list at most once, carrying its line count. -/
def sliceAfter (old : AgentSlice) (sid lc : Nat) (ap ac : Bool) : AgentSlice :=
  ⟨(if sid ∉ old.PrioritySections ∧ ap = true then old.PrioritySections ++ [sid]
      else old.PrioritySections),
   (if sid ∉ old.ContextSections ∧ ac = true then old.ContextSections ++ [sid]
      else old.ContextSections),
   (if sid ∉ old.PrioritySections ∧ ap = true then old.TotalPriorityLines + lc
      else old.TotalPriorityLines),
   (if sid ∉ old.ContextSections ∧ ac = true then old.TotalContextLines + lc
      else old.TotalContextLines)⟩

/-- The aggregated slice of agent `ag` over a processed section prefix:
ids (in document order) and line-count sums of the sections carrying each
relevance label for `ag`. -/
def aggSliceSpec (classified : Nat → List SectionAssignment) (allowed : String → Bool)
    (processed : List Section) (ag : String) : AgentSlice :=
  ⟨(processed.filter (hasLabel classified allowed ag "priority")).map (·.id),
   (processed.filter (hasLabel classified allowed ag "context")).map (·.id),
   sumLineCounts (processed.filter (hasLabel classified allowed ag "priority")),
   sumLineCounts (processed.filter (hasLabel classified allowed ag "context"))⟩

/-! ### Package query (src/internal/query: query.go, cache.go) -/

/-- `query.QueryResult`. -/
structure QueryResult where
  Status : String
  Answer : String
  FilesAnalyzed : List String
  LineCountSaved : Nat
  Mode : String
  Err : String
  deriving Repr, DecidableEq

/-- `query.stripCodeFences` (identical copy in classify.go): trailing blank
lines are removed after dropping the opening fence line, then a closing
backtick line is dropped. -/
def stripCodeFences (raw : String) : String :=
  let trimmed := goTrimSpace raw
  if goStartsWith trimmed "```" = false then trimmed
  else
    let lines0 := goSplitNl trimmed
    if lines0 = [] then ""
    else
      let lines1 := lines0.drop 1
      let lines2 := (lines1.reverse.dropWhile (fun s => goTrimSpace s = "")).reverse
      let lines3 :=
        match lines2.getLast? with
        | some last => if goStartsWith (goTrimSpace last) "```" = true then lines2.dropLast else lines2
        | none => lines2
      goTrimSpace (joinNl lines3)

/-- `query.cacheTTL` (one hour, in nanoseconds). -/
def cacheTTL : Int := 3600000000000

/-- `query.cacheEntry`: mtimes map paths to the modification time observed
at query time; `createdAt` is the creation instant. -/
structure CacheEntry where
  result : QueryResult
  mtimes : List (String × Int)
  createdAt : Int
  deriving Repr, DecidableEq

/-- `cacheEntry.expired`: `time.Since(createdAt) > cacheTTL`. -/
def expired (now : Int) (e : CacheEntry) : Bool :=
  decide (cacheTTL < now - e.createdAt)

/-- `cacheEntry.filesChanged`: some tracked file is gone or has a
modification time after the captured one. -/
def filesChanged (stat : String → Option Int) (e : CacheEntry) : Bool :=
  e.mtimes.any (fun pm =>
    match stat pm.1 with
    | none => true
    | some cur => decide (pm.2 < cur))

/-- The process-wide cache state (`queryCache`, `cacheHits`,
`cacheMisses`). -/
structure CacheState where
  queryCache : List (String × CacheEntry)
  cacheHits : Int
  cacheMisses : Int
  deriving Repr, DecidableEq

/-- Go map read on the cache. -/
def cacheLookup (m : List (String × CacheEntry)) (k : String) : Option CacheEntry :=
  match m with
  | [] => none
  | (k', v) :: rest => if k' = k then some v else cacheLookup rest k

/-- Go `delete(queryCache, key)`. -/
def cacheErase (m : List (String × CacheEntry)) (k : String) : List (String × CacheEntry) :=
  match m with
  | [] => []
  | (k', v) :: rest => if k' = k then rest else (k', v) :: cacheErase rest k

/-- `query.cacheGet`: the clock and the file-stat probe are explicit
parameters. -/
def cacheGet (st : CacheState) (key : String) (now : Int) (stat : String → Option Int) :
    Option QueryResult × CacheState :=
  match cacheLookup st.queryCache key with
  | none => (none, { st with cacheMisses := st.cacheMisses + 1 })
  | some entry =>
    if (expired now entry || filesChanged stat entry) = true then
      (none, { st with queryCache := cacheErase st.queryCache key,
                       cacheMisses := st.cacheMisses + 1 })
    else
      (some entry.result, { st with cacheHits := st.cacheHits + 1 })

/-! ### Section-count lemmas for the extraction scan -/

lemma countHeadings_cons (inF : Bool) (f l : String) (ls : List String) :
    countHeadings inF f (l :: ls) =
      if inF = false ∧ goStartsWith (goTrimLeftSpaceTab l) "## " = true then
        1 + countHeadings inF f ls
      else
        countHeadings (stepFence inF f l).1 (stepFence inF f l).2 ls := rfl

lemma preLines_cons (inF : Bool) (f l : String) (ls : List String) :
    preLines inF f (l :: ls) =
      if inF = false ∧ goStartsWith (goTrimLeftSpaceTab l) "## " = true then []
      else l :: preLines (stepFence inF f l).1 (stepFence inF f l).2 ls := rfl

lemma extractStep_heading (st : ExtState) (l : String)
    (hc : st.inFence = false ∧ goStartsWith (goTrimLeftSpaceTab l) "## " = true) :
    extractStep st l =
      { sections := (emitSec st.sections st.nextID st.currentHeading st.currentBody
          (!st.hasSeenHeading)).1,
        nextID := (emitSec st.sections st.nextID st.currentHeading st.currentBody
          (!st.hasSeenHeading)).2,
        currentHeading := goTrimSpace (goTrimLeading (goTrimLeftSpaceTab l) "## "),
        currentBody := [], hasSeenHeading := true,
        inFence := st.inFence, fence := st.fence } := by
  simp [extractStep, hc]

lemma extractStep_plain (st : ExtState) (l : String)
    (hc : ¬ (st.inFence = false ∧ goStartsWith (goTrimLeftSpaceTab l) "## " = true)) :
    extractStep st l =
      { st with currentBody := st.currentBody ++ [l],
                inFence := (stepFence st.inFence st.fence l).1,
                fence := (stepFence st.inFence st.fence l).2 } := by
  simp [extractStep, hc]

lemma extFinish_foldl_seen (lines : List String) (st : ExtState)
    (h : st.hasSeenHeading = true) :
    (extFinish (lines.foldl extractStep st)).length =
      st.sections.length + countHeadings st.inFence st.fence lines + 1 := by
  induction lines generalizing st with
  | nil =>
    simp [extFinish, emitSec, h, countHeadings]
  | cons l ls ih =>
    by_cases hc : st.inFence = false ∧ goStartsWith (goTrimLeftSpaceTab l) "## " = true
    · have hemit : (emitSec st.sections st.nextID st.currentHeading st.currentBody
          (!st.hasSeenHeading)).1 = st.sections ++
            [⟨st.nextID, st.currentHeading, joinNl st.currentBody, st.currentBody.length⟩] := by
        simp [emitSec, h]
      rw [List.foldl_cons, extractStep_heading st l hc, ih _ rfl]
      rw [countHeadings_cons, if_pos hc]
      simp only [hemit, List.length_append, List.length_singleton]
      omega
    · rw [List.foldl_cons, extractStep_plain st l hc, ih _ (by simp [h])]
      rw [countHeadings_cons, if_neg hc]

lemma extFinish_foldl_unseen (lines : List String) (st : ExtState)
    (h : st.hasSeenHeading = false) :
    (extFinish (lines.foldl extractStep st)).length =
      st.sections.length + countHeadings st.inFence st.fence lines +
        (if goTrimSpace (joinNl (st.currentBody ++ preLines st.inFence st.fence lines)) = ""
          then 0 else 1) := by
  induction lines generalizing st with
  | nil =>
    simp only [List.foldl_nil, countHeadings, preLines, List.append_nil]
    by_cases hw : goTrimSpace (joinNl st.currentBody) = ""
    · simp [extFinish, emitSec, h, hw]
    · simp [extFinish, emitSec, h, hw]
  | cons l ls ih =>
    by_cases hc : st.inFence = false ∧ goStartsWith (goTrimLeftSpaceTab l) "## " = true
    · rw [List.foldl_cons, extractStep_heading st l hc, extFinish_foldl_seen _ _ rfl]
      rw [countHeadings_cons, if_pos hc, preLines_cons, if_pos hc, List.append_nil]
      by_cases hw : goTrimSpace (joinNl st.currentBody) = ""
      · simp [emitSec, h, hw]; omega
      · simp only [emitSec, h, Bool.not_false, true_and, if_neg hw, List.length_append,
          List.length_singleton]
        omega
    · rw [List.foldl_cons, extractStep_plain st l hc, ih _ (by simp [h])]
      rw [countHeadings_cons, if_neg hc, preLines_cons, if_neg hc]
      simp [List.append_assoc]

/-- C4: for every input document, the number of sections returned by
`ExtractSections` equals the number of heading lines (left-trimmed text
starting with the `## ` prefix) lying outside fenced code blocks in the
text remaining after leading-metadata-block removal, plus one exactly when
the leading preamble text before the first such heading is
non-whitespace. -/
theorem extract_section_count (doc : String) :
    (ExtractSections doc).length =
      countHeadings false "" (skipYAMLFrontmatter (splitLines doc)) +
        (if goTrimSpace (joinNl (preLines false "" (skipYAMLFrontmatter (splitLines doc)))) = ""
          then 0 else 1) := by
  have h := extFinish_foldl_unseen (skipYAMLFrontmatter (splitLines doc)) extInit rfl
  simpa [ExtractSections, extractFromLines, extInit] using h

/-! ### Frontmatter lemmas -/

lemma findCloser_eq_nil (ls : List String) (h : ∀ x ∈ ls, goTrimSpace x ≠ "---") :
    findCloser ls = [] := by
  induction ls with
  | nil => rfl
  | cons x xs ih =>
    have hx := h x (by simp)
    simp only [findCloser, if_neg hx]
    exact ih (fun y hy => h y (by simp [hy]))

lemma findCloser_append (a b : List String) (c : String) (hc : goTrimSpace c = "---")
    (ha : ∀ x ∈ a, goTrimSpace x ≠ "---") :
    findCloser (a ++ c :: b) = b := by
  induction a with
  | nil => simp [findCloser, hc]
  | cons x xs ih =>
    have hx := ha x (by simp)
    simp only [List.cons_append, findCloser, if_neg hx]
    exact ih (fun y hy => ha y (by simp [hy]))

/-- C6: when the very first line trims to `---`, the metadata block is
consumed: with no later `---` line the entire document is discarded and
zero sections are returned; with a closing `---` line everything up to and
including it is dropped before the section scan runs. -/
theorem frontmatter_consumed (doc l : String) (ls : List String)
    (hsplit : splitLines doc = l :: ls) (hl : goTrimSpace l = "---") :
    ((∀ x ∈ ls, goTrimSpace x ≠ "---") → ExtractSections doc = []) ∧
    (∀ a c b, ls = a ++ c :: b → goTrimSpace c = "---" →
      (∀ x ∈ a, goTrimSpace x ≠ "---") → ExtractSections doc = extractFromLines b) := by
  constructor
  · intro hnone
    rw [ExtractSections, hsplit]
    simp only [skipYAMLFrontmatter, if_pos hl, findCloser_eq_nil ls hnone]
    decide
  · intro a c b hdecomp hc ha
    rw [ExtractSections, hsplit]
    simp only [skipYAMLFrontmatter, if_pos hl, hdecomp, findCloser_append a b c hc ha]

theorem frontmatter_consumed_witness : ExtractSections "---\nx" = [] :=
  (frontmatter_consumed "---\nx" "---" ["x"] (by decide) (by decide)).1 (by decide)

/-- C7: the preview of a body with at most 100 lines is its first 50 lines
verbatim with no omission marker; a longer body previews as the first 25
lines, one omission marker reporting total minus 50 omitted lines, and the
last 25 lines. -/
theorem preview_shape (s : Section) :
    ((splitBodyLines s.body).length ≤ 100 →
      s.Preview = joinNl ((splitBodyLines s.body).take 50)) ∧
    (100 < (splitBodyLines s.body).length →
      s.Preview = joinNl ((splitBodyLines s.body).take 25) ++ "\n[... " ++
        toString ((splitBodyLines s.body).length - 50) ++ " lines omitted ...]\n" ++
        joinNl ((splitBodyLines s.body).drop ((splitBodyLines s.body).length - 25))) := by
  constructor
  · intro hle
    by_cases h0 : (splitBodyLines s.body).length = 0
    · have hnil : splitBodyLines s.body = [] := List.length_eq_zero.mp h0
      simp [Section.Preview, hnil]
      rfl
    · have htake : (splitBodyLines s.body).take (min 50 (splitBodyLines s.body).length) =
          (splitBodyLines s.body).take 50 := by
        rw [← List.take_take, List.take_length]
      simp only [Section.Preview, if_neg h0, if_pos hle, htake]
  · intro hgt
    have h0 : ¬ (splitBodyLines s.body).length = 0 := by omega
    have hle : ¬ (splitBodyLines s.body).length ≤ 100 := by omega
    simp only [Section.Preview, if_neg h0, if_neg hle]

set_option maxRecDepth 10000 in
theorem preview_shape_witness :
    100 < (splitBodyLines previewDemoBody).length ∧
    Section.Preview ⟨1, "h", previewDemoBody, 101⟩ =
      joinNl ((splitBodyLines previewDemoBody).take 25) ++ "\n[... " ++
        toString ((splitBodyLines previewDemoBody).length - 50) ++ " lines omitted ...]\n" ++
        joinNl ((splitBodyLines previewDemoBody).drop
          ((splitBodyLines previewDemoBody).length - 25)) :=
  ⟨by decide, (preview_shape ⟨1, "h", previewDemoBody, 101⟩).2 (by decide)⟩

/-! ### Slicing-map lemmas -/

lemma mapGet_mapSet (m : SliceMap) (k : String) (v : AgentSlice) (a : String) :
    mapGet (mapSet m k v) a = if k = a then v else mapGet m a := by
  induction m with
  | nil => by_cases h : k = a <;> simp [mapSet, mapGet, h]
  | cons kv rest ih =>
    obtain ⟨k', v'⟩ := kv
    by_cases h1 : k' = k
    · subst h1
      by_cases h2 : k' = a <;> simp [mapSet, mapGet, h2]
    · by_cases h2 : k' = a
      · have hka : ¬ k = a := fun he => h1 (h2.trans he.symm)
        have hak : ¬ a = k := fun he => hka he.symm
        simp [mapSet, mapGet, h1, h2, hka, hak]
      · simp [mapSet, mapGet, h1, h2, ih]

lemma mapGet_buildEmpty_aux (agents : List AgentDomain) (m : SliceMap)
    (h : ∀ a, mapGet m a = ⟨[], [], 0, 0⟩) :
    ∀ a, mapGet (agents.foldl (fun m ag => mapSet m ag.name ⟨[], [], 0, 0⟩) m) a =
      ⟨[], [], 0, 0⟩ := by
  induction agents generalizing m with
  | nil => exact h
  | cons ag rest ih =>
    refine ih _ (fun a => ?_)
    rw [mapGet_mapSet]
    by_cases hn : ag.name = a <;> simp [hn, h]

lemma mapGet_buildEmpty (agents : List AgentDomain) (a : String) :
    mapGet (buildEmptySlicingMap agents) a = ⟨[], [], 0, 0⟩ :=
  mapGet_buildEmpty_aux agents [] (fun _ => rfl) a

lemma mapGet_sortSlices (m : SliceMap) (a : String) :
    mapGet (sortSlices m) a = sortSlice (mapGet m a) := by
  induction m with
  | nil => rfl
  | cons kv rest ih =>
    obtain ⟨k, v⟩ := kv
    by_cases h : k = a
    · simp [sortSlices, mapGet, h]
    · simpa [sortSlices, mapGet, h] using ih

/-! ### Full-document collapse lemmas -/

lemma collapses_total (total : Nat) (h : 0 < total) : collapses total total = true := by
  have : total * 100 / total = 100 := by
    rw [Nat.mul_div_cancel_left 100 h]
  simp [collapses, this]

lemma collapseStep_eq (allIDs : List Nat) (total : Nat) (m : SliceMap) (ag : AgentDomain) :
    collapseStep allIDs total m ag =
      if collapses (mapGet m ag.name).TotalPriorityLines total = true then
        mapSet m ag.name ⟨allIDs, [], total, 0⟩
      else m := rfl

lemma collapse_foldl_get (agents : List AgentDomain) (allIDs : List Nat) (total : Nat)
    (htotal : 0 < total) (orig : SliceMap) :
    ∀ (m : SliceMap) (Q : String → Bool),
      (∀ a, mapGet m a = if Q a = true then ⟨allIDs, [], total, 0⟩ else mapGet orig a) →
      ∀ a, mapGet (agents.foldl (collapseStep allIDs total) m) a =
        if (Q a || (agents.any (fun ag => ag.name = a) &&
            collapses (mapGet orig a).TotalPriorityLines total)) = true
        then ⟨allIDs, [], total, 0⟩ else mapGet orig a := by
  induction agents with
  | nil =>
    intro m Q hInv a
    simpa using hInv a
  | cons b rest ih =>
    intro m Q hInv a
    rw [List.foldl_cons]
    have hInv1 : ∀ a', mapGet (collapseStep allIDs total m b) a' =
        if (Q a' || (decide (b.name = a') &&
            collapses (mapGet orig a').TotalPriorityLines total)) = true
        then ⟨allIDs, [], total, 0⟩ else mapGet orig a' := by
      intro a'
      rw [collapseStep_eq]
      by_cases hQ : Q b.name = true
      · have hcol : collapses (mapGet m b.name).TotalPriorityLines total = true := by
          rw [hInv b.name, if_pos hQ]
          exact collapses_total total htotal
        rw [if_pos hcol, mapGet_mapSet]
        by_cases he : b.name = a'
        · rw [if_pos he, if_pos (by simp [← he, hQ])]
        · rw [if_neg he, hInv a']
          have hd : decide (b.name = a') = false := by simp [he]
          rw [hd, Bool.false_and, Bool.or_false]
      · have hQb : Q b.name = false := Bool.eq_false_iff.mpr hQ
        have hmb : mapGet m b.name = mapGet orig b.name := by
          rw [hInv b.name, hQb]; simp
        rw [hmb]
        by_cases hcol : collapses (mapGet orig b.name).TotalPriorityLines total = true
        · rw [if_pos hcol, mapGet_mapSet]
          by_cases he : b.name = a'
          · rw [if_pos he, if_pos (by simp [← he, hcol])]
          · rw [if_neg he, hInv a']
            have hd : decide (b.name = a') = false := by simp [he]
            rw [hd, Bool.false_and, Bool.or_false]
        · have hcolf : collapses (mapGet orig b.name).TotalPriorityLines total = false :=
            Bool.eq_false_iff.mpr hcol
          rw [if_neg hcol, hInv a']
          by_cases he : b.name = a'
          · have hd : decide (b.name = a') = true := by simp [he]
            rw [hd, ← he, hcolf, Bool.and_false, Bool.or_false]
          · have hd : decide (b.name = a') = false := by simp [he]
            rw [hd, Bool.false_and, Bool.or_false]
    rw [ih (collapseStep allIDs total m b)
      (fun a' => Q a' || (decide (b.name = a') &&
        collapses (mapGet orig a').TotalPriorityLines total)) hInv1 a]
    cases hQa : Q a <;>
      cases hcc : collapses (mapGet orig a).TotalPriorityLines total <;>
      simp [List.any_cons, hQa, hcc]

/-! ### Aggregation characterization -/

lemma mapSet_get_self (m : SliceMap) (k : String) (a : String) :
    mapGet (mapSet m k (mapGet m k)) a = mapGet m a := by
  rw [mapGet_mapSet]
  by_cases h : k = a
  · rw [if_pos h, h]
  · rw [if_neg h]

lemma pseen_mem_of_true (st : AggState) (sid : Nat) (ag : String)
    (hp : st.pseen ag sid = decide (sid ∈ (mapGet st.slicing ag).PrioritySections))
    (h : ¬ st.pseen ag sid = false) :
    sid ∈ (mapGet st.slicing ag).PrioritySections := by
  have ht : st.pseen ag sid = true := by
    revert h; cases st.pseen ag sid <;> simp
  rw [ht] at hp
  exact of_decide_eq_true hp.symm

lemma cseen_mem_of_true (st : AggState) (sid : Nat) (ag : String)
    (hc : st.cseen ag sid = decide (sid ∈ (mapGet st.slicing ag).ContextSections))
    (h : ¬ st.cseen ag sid = false) :
    sid ∈ (mapGet st.slicing ag).ContextSections := by
  have ht : st.cseen ag sid = true := by
    revert h; cases st.cseen ag sid <;> simp
  rw [ht] at hc
  exact of_decide_eq_true hc.symm

lemma aggAssign_step (lc sid : Nat) (st : AggState) (x : SectionAssignment)
    (hx : x.relevance = "priority" ∨ x.relevance = "context")
    (hp : ∀ ag, st.pseen ag sid = decide (sid ∈ (mapGet st.slicing ag).PrioritySections))
    (hc : ∀ ag, st.cseen ag sid = decide (sid ∈ (mapGet st.slicing ag).ContextSections)) :
    (∀ ag b1 b2, sliceAfter (mapGet (aggAssign lc sid st x).slicing ag) sid lc b1 b2 =
       sliceAfter (mapGet st.slicing ag) sid lc
         (decide (x.agent = ag ∧ x.relevance = "priority") || b1)
         (decide (x.agent = ag ∧ x.relevance = "context") || b2)) ∧
    (∀ ag i, i ≠ sid → (aggAssign lc sid st x).pseen ag i = st.pseen ag i ∧
       (aggAssign lc sid st x).cseen ag i = st.cseen ag i) ∧
    (∀ ag, (aggAssign lc sid st x).pseen ag sid =
       decide (sid ∈ (mapGet (aggAssign lc sid st x).slicing ag).PrioritySections)) ∧
    (∀ ag, (aggAssign lc sid st x).cseen ag sid =
       decide (sid ∈ (mapGet (aggAssign lc sid st x).slicing ag).ContextSections)) := by
  rcases hx with hx | hx
  · by_cases hseen : st.pseen x.agent sid = false
    · have hsidP : sid ∉ (mapGet st.slicing x.agent).PrioritySections :=
        of_decide_eq_false ((hp x.agent).symm.trans hseen)
      have hagg : aggAssign lc sid st x =
          { slicing := mapSet st.slicing x.agent
              { mapGet st.slicing x.agent with
                  PrioritySections := (mapGet st.slicing x.agent).PrioritySections ++ [sid],
                  TotalPriorityLines := (mapGet st.slicing x.agent).TotalPriorityLines + lc },
            pseen := fun ag i => if ag = x.agent ∧ i = sid then true else st.pseen ag i,
            cseen := st.cseen } := by
        simp [aggAssign, hx, hseen]
      rw [hagg]
      refine ⟨?_, ?_, ?_, ?_⟩
      · intro ag b1 b2
        by_cases he : x.agent = ag
        · subst he
          rw [mapGet_mapSet, if_pos rfl]
          simp [sliceAfter, hsidP, hx]
        · rw [mapGet_mapSet, if_neg he]
          simp [he]
      · intro ag i hi
        simp [hi]
      · intro ag
        by_cases he : x.agent = ag
        · subst he
          rw [mapGet_mapSet, if_pos rfl]
          simp
        · rw [mapGet_mapSet, if_neg he]
          exact (if_neg (fun hh => he hh.1.symm : ¬ (ag = x.agent ∧ sid = sid))).trans (hp ag)
      · intro ag
        by_cases he : x.agent = ag
        · subst he
          rw [mapGet_mapSet, if_pos rfl]
          exact hc x.agent
        · rw [mapGet_mapSet, if_neg he]
          exact hc ag
    · have hsidP : sid ∈ (mapGet st.slicing x.agent).PrioritySections :=
        pseen_mem_of_true st sid x.agent (hp x.agent) hseen
      have hagg : aggAssign lc sid st x =
          { st with slicing := mapSet st.slicing x.agent (mapGet st.slicing x.agent) } := by
        simp [aggAssign, hx, hseen]
      rw [hagg]
      refine ⟨?_, ?_, ?_, ?_⟩
      · intro ag b1 b2
        rw [mapSet_get_self]
        by_cases he : x.agent = ag
        · subst he
          simp [sliceAfter, hsidP, hx]
        · simp [he]
      · intro ag i hi
        exact ⟨rfl, rfl⟩
      · intro ag
        rw [mapSet_get_self]
        exact hp ag
      · intro ag
        rw [mapSet_get_self]
        exact hc ag
  · have hxp : ¬ (x.relevance = "priority") := by rw [hx]; decide
    by_cases hseen : st.cseen x.agent sid = false
    · have hsidC : sid ∉ (mapGet st.slicing x.agent).ContextSections :=
        of_decide_eq_false ((hc x.agent).symm.trans hseen)
      have hagg : aggAssign lc sid st x =
          { slicing := mapSet st.slicing x.agent
              { mapGet st.slicing x.agent with
                  ContextSections := (mapGet st.slicing x.agent).ContextSections ++ [sid],
                  TotalContextLines := (mapGet st.slicing x.agent).TotalContextLines + lc },
            pseen := st.pseen,
            cseen := fun ag i => if ag = x.agent ∧ i = sid then true else st.cseen ag i } := by
        simp [aggAssign, hxp, hseen]
      rw [hagg]
      refine ⟨?_, ?_, ?_, ?_⟩
      · intro ag b1 b2
        by_cases he : x.agent = ag
        · subst he
          rw [mapGet_mapSet, if_pos rfl]
          simp [sliceAfter, hsidC, hx]
        · rw [mapGet_mapSet, if_neg he]
          simp [he]
      · intro ag i hi
        simp [hi]
      · intro ag
        by_cases he : x.agent = ag
        · subst he
          rw [mapGet_mapSet, if_pos rfl]
          exact hp x.agent
        · rw [mapGet_mapSet, if_neg he]
          exact hp ag
      · intro ag
        by_cases he : x.agent = ag
        · subst he
          rw [mapGet_mapSet, if_pos rfl]
          simp
        · rw [mapGet_mapSet, if_neg he]
          exact (if_neg (fun hh => he hh.1.symm : ¬ (ag = x.agent ∧ sid = sid))).trans (hc ag)
    · have hsidC : sid ∈ (mapGet st.slicing x.agent).ContextSections :=
        cseen_mem_of_true st sid x.agent (hc x.agent) hseen
      have hagg : aggAssign lc sid st x =
          { st with slicing := mapSet st.slicing x.agent (mapGet st.slicing x.agent) } := by
        simp [aggAssign, hxp, hseen]
      rw [hagg]
      refine ⟨?_, ?_, ?_, ?_⟩
      · intro ag b1 b2
        rw [mapSet_get_self]
        by_cases he : x.agent = ag
        · subst he
          simp [sliceAfter, hsidC, hx]
        · simp [he]
      · intro ag i hi
        exact ⟨rfl, rfl⟩
      · intro ag
        rw [mapSet_get_self]
        exact hp ag
      · intro ag
        rw [mapSet_get_self]
        exact hc ag

lemma normalize_relevance (l : List SectionAssignment) (allowed : String → Bool) :
    ∀ x ∈ normalizeAssignments l allowed,
      x.relevance = "priority" ∨ x.relevance = "context" := by
  intro x hx
  simp only [normalizeAssignments, List.mem_filterMap] at hx
  obtain ⟨a, _, ha⟩ := hx
  split at ha
  · exact absurd ha (by simp)
  · split at ha
    · exact absurd ha (by simp)
    · rename_i h1 h2
      injection ha with hv
      rw [← hv]
      rcases not_and_or.mp h2 with h | h
      · left
        simpa using h
      · right
        simpa using h

lemma mem_sliceAfterP (old : AgentSlice) (sid lc : Nat) (ap ac : Bool) (i : Nat)
    (hi : i ≠ sid) :
    (i ∈ (sliceAfter old sid lc ap ac).PrioritySections) ↔ i ∈ old.PrioritySections := by
  unfold sliceAfter
  dsimp only
  split <;> simp [hi]

lemma mem_sliceAfterC (old : AgentSlice) (sid lc : Nat) (ap ac : Bool) (i : Nat)
    (hi : i ≠ sid) :
    (i ∈ (sliceAfter old sid lc ap ac).ContextSections) ↔ i ∈ old.ContextSections := by
  unfold sliceAfter
  dsimp only
  split <;> simp [hi]

lemma aggAssign_foldl (lc sid : Nat) (A : List SectionAssignment)
    (hA : ∀ x ∈ A, x.relevance = "priority" ∨ x.relevance = "context") :
    ∀ (st : AggState),
    (∀ ag, st.pseen ag sid = decide (sid ∈ (mapGet st.slicing ag).PrioritySections)) →
    (∀ ag, st.cseen ag sid = decide (sid ∈ (mapGet st.slicing ag).ContextSections)) →
    (∀ ag, mapGet (A.foldl (aggAssign lc sid) st).slicing ag =
        sliceAfter (mapGet st.slicing ag) sid lc (anyFor A ag "priority") (anyFor A ag "context")) ∧
    (∀ ag i, i ≠ sid → (A.foldl (aggAssign lc sid) st).pseen ag i = st.pseen ag i ∧
        (A.foldl (aggAssign lc sid) st).cseen ag i = st.cseen ag i) := by
  induction A with
  | nil =>
    intro st hp hc
    refine ⟨fun ag => ?_, fun ag i hi => ⟨rfl, rfl⟩⟩
    simp [anyFor, sliceAfter]
  | cons x rest ih =>
    intro st hp hc
    have hx := hA x (by simp)
    have hstep := aggAssign_step lc sid st x hx hp hc
    have hrest := ih (fun y hy => hA y (by simp [hy])) (aggAssign lc sid st x)
      hstep.2.2.1 hstep.2.2.2
    rw [List.foldl_cons]
    refine ⟨fun ag => ?_, fun ag i hi => ?_⟩
    · rw [hrest.1 ag, hstep.1 ag (anyFor rest ag "priority") (anyFor rest ag "context")]
      rfl
    · have h1 := hrest.2 ag i hi
      have h2 := hstep.2.1 ag i hi
      exact ⟨h1.1.trans h2.1, h1.2.trans h2.2⟩

lemma aggAssign_foldl_seen (lc sid : Nat) (A : List SectionAssignment)
    (hA : ∀ x ∈ A, x.relevance = "priority" ∨ x.relevance = "context") :
    ∀ (st : AggState),
    (∀ ag, st.pseen ag sid = decide (sid ∈ (mapGet st.slicing ag).PrioritySections)) →
    (∀ ag, st.cseen ag sid = decide (sid ∈ (mapGet st.slicing ag).ContextSections)) →
    (∀ ag, (A.foldl (aggAssign lc sid) st).pseen ag sid =
        decide (sid ∈ (mapGet (A.foldl (aggAssign lc sid) st).slicing ag).PrioritySections)) ∧
    (∀ ag, (A.foldl (aggAssign lc sid) st).cseen ag sid =
        decide (sid ∈ (mapGet (A.foldl (aggAssign lc sid) st).slicing ag).ContextSections)) := by
  induction A with
  | nil =>
    intro st hp hc
    exact ⟨hp, hc⟩
  | cons x rest ih =>
    intro st hp hc
    have hx := hA x (by simp)
    have hstep := aggAssign_step lc sid st x hx hp hc
    have hrest := ih (fun y hy => hA y (by simp [hy])) (aggAssign lc sid st x)
      hstep.2.2.1 hstep.2.2.2
    rw [List.foldl_cons]
    exact hrest

lemma sliceAfter_spec_append (classified : Nat → List SectionAssignment)
    (allowed : String → Bool) (processed : List Section) (s : Section) (ag : String)
    (hfresh : s.id ∉ processed.map (·.id)) :
    sliceAfter (aggSliceSpec classified allowed processed ag) s.id s.lineCount
      (hasLabel classified allowed ag "priority" s) (hasLabel classified allowed ag "context" s) =
    aggSliceSpec classified allowed (processed ++ [s]) ag := by
  have hsub : ∀ (p : Section → Bool), s.id ∉ (processed.filter p).map (·.id) := by
    intro p h
    obtain ⟨t, ht, hte⟩ := List.mem_map.mp h
    exact hfresh (hte ▸ List.mem_map_of_mem _ (List.mem_of_mem_filter ht))
  have hsP := hsub (hasLabel classified allowed ag "priority")
  have hsC := hsub (hasLabel classified allowed ag "context")
  by_cases hP : hasLabel classified allowed ag "priority" s = true <;>
    by_cases hC : hasLabel classified allowed ag "context" s = true <;>
    simp [aggSliceSpec, sliceAfter, List.filter_append, hP, hC, hsP, hsC,
      sumLineCounts, Bool.eq_false_iff.mpr]

lemma agg_foldl_char (classified : Nat → List SectionAssignment) (allowed : String → Bool)
    (secs : List Section) :
    ∀ (processed : List Section) (st : AggState),
    (((processed ++ secs).map (·.id)).Nodup) →
    (∀ ag, mapGet st.slicing ag = aggSliceSpec classified allowed processed ag) →
    (∀ ag i, st.pseen ag i = decide (i ∈ (mapGet st.slicing ag).PrioritySections)) →
    (∀ ag i, st.cseen ag i = decide (i ∈ (mapGet st.slicing ag).ContextSections)) →
    ∀ ag, mapGet ((secs.foldl (aggSection classified allowed) st).slicing) ag =
      aggSliceSpec classified allowed (processed ++ secs) ag := by
  induction secs with
  | nil =>
    intro processed st _ hinv _ _ ag
    simpa using hinv ag
  | cons s rest ih =>
    intro processed st hnd hinv hp hc ag
    have hfresh : s.id ∉ processed.map (·.id) := by
      intro hmem
      have hnd' : (processed.map (·.id) ++ s.id :: rest.map (·.id)).Nodup := by
        simpa using hnd
      rw [List.nodup_append] at hnd'
      exact hnd'.2.2 hmem (by simp)
    have hrel := normalize_relevance (classified s.id) allowed
    have hfold := aggAssign_foldl s.lineCount s.id
      (normalizeAssignments (classified s.id) allowed) hrel st
      (fun a => hp a s.id) (fun a => hc a s.id)
    have hseen := aggAssign_foldl_seen s.lineCount s.id
      (normalizeAssignments (classified s.id) allowed) hrel st
      (fun a => hp a s.id) (fun a => hc a s.id)
    rw [List.foldl_cons]
    have hinv1 : ∀ a, mapGet ((aggSection classified allowed st s).slicing) a =
        aggSliceSpec classified allowed (processed ++ [s]) a := by
      intro a
      have h1 := hfold.1 a
      rw [hinv a] at h1
      exact h1.trans (sliceAfter_spec_append classified allowed processed s a hfresh)
    have hp1 : ∀ a i, (aggSection classified allowed st s).pseen a i =
        decide (i ∈ (mapGet ((aggSection classified allowed st s).slicing) a).PrioritySections) := by
      intro a i
      simp only [aggSection]
      by_cases hi : i = s.id
      · subst hi
        exact hseen.1 a
      · have h2 := (hfold.2 a i hi).1
        rw [h2, hp a i]
        refine decide_eq_decide.mpr ?_
        rw [hfold.1 a]
        exact (mem_sliceAfterP (mapGet st.slicing a) s.id s.lineCount _ _ i hi).symm
    have hc1 : ∀ a i, (aggSection classified allowed st s).cseen a i =
        decide (i ∈ (mapGet ((aggSection classified allowed st s).slicing) a).ContextSections) := by
      intro a i
      simp only [aggSection]
      by_cases hi : i = s.id
      · subst hi
        exact hseen.2 a
      · have h2 := (hfold.2 a i hi).2
        rw [h2, hc a i]
        refine decide_eq_decide.mpr ?_
        rw [hfold.1 a]
        exact (mem_sliceAfterC (mapGet st.slicing a) s.id s.lineCount _ _ i hi).symm
    have hnd1 : (((processed ++ [s]) ++ rest).map (·.id)).Nodup := by
      simpa using hnd
    have := ih (processed ++ [s]) (aggSection classified allowed st s) hnd1 hinv1 hp1 hc1 ag
    simpa using this

lemma aggregate_char (classified : Nat → List SectionAssignment) (allowed : String → Bool)
    (sections : List Section) (agents : List AgentDomain)
    (hnd : (sections.map (·.id)).Nodup) (ag : String) :
    mapGet (aggregate classified allowed sections agents).slicing ag =
      aggSliceSpec classified allowed sections ag := by
  have h := agg_foldl_char classified allowed sections []
    ⟨buildEmptySlicingMap agents, fun _ _ => false, fun _ _ => false⟩
    (by simpa using hnd)
    (fun a => by rw [mapGet_buildEmpty]; rfl)
    (fun a i => by rw [mapGet_buildEmpty]; simp)
    (fun a i => by rw [mapGet_buildEmpty]; simp)
    ag
  simpa [aggregate] using h

/-- C1: over a non-empty section list with positive total line count, when
no configured reviewer's slice passes the strict 10% guard
(`floor(priorityLines*100/totalLines) > 10`), the result keeps status
`no_classification`, carries the diagnostic naming the domain-mismatch
guard, and still holds the computed (sorted aggregated) per-reviewer
slices; 5 of 50 lines (exactly 10%) does not clear the guard while 6 of 50
does. -/
theorem guard_blocks (classified : Nat → List SectionAssignment) (sections : List Section)
    (agents0 : List AgentDomain) (hne : sections ≠ []) (htot : 0 < totalLineCount sections)
    (hguard : ∀ ag ∈ agentsOrDefault agents0,
      clearsGuard (mapGet (aggregateSorted classified sections agents0) ag.name).TotalPriorityLines
        (totalLineCount sections) = false) :
    (buildResult classified sections agents0).Status = statusNoClassification ∧
    (buildResult classified sections agents0).Error =
      "domain mismatch: no agent has >10% priority lines" ∧
    (buildResult classified sections agents0).SlicingMap =
      aggregateSorted classified sections agents0 ∧
    clearsGuard 5 50 = false ∧ clearsGuard 6 50 = true := by
  have htz : ¬ (totalLineCount sections = 0) := by omega
  have hany : ((agentsOrDefault agents0).any (fun ag =>
      clearsGuard (mapGet (aggregateSorted classified sections agents0) ag.name).TotalPriorityLines
        (totalLineCount sections))) = false := by
    rw [List.any_eq_false]
    intro ag hag
    simp [hguard ag hag]
  refine ⟨?_, ?_, ?_, by decide, by decide⟩ <;> simp [buildResult, htz, hany]

theorem guard_blocks_witness :
    (buildResult (fun n => if n = 1 then [⟨"fd-safety", "priority", 1⟩] else [])
      [⟨1, "A", "", 5⟩, ⟨2, "B", "", 45⟩] []).Status = statusNoClassification :=
  (guard_blocks (fun n => if n = 1 then [⟨"fd-safety", "priority", 1⟩] else [])
    [⟨1, "A", "", 5⟩, ⟨2, "B", "", 45⟩] [] (by decide) (by decide) (by decide)).1

/-- C2: when some configured reviewer clears the strict 10% guard, the
status is `success` and each configured reviewer's slice independently is
rewritten to the full document (all section ids in document order, priority
total equal to the document total, context cleared) exactly when
`floor(priorityLines*100/totalLines) ≥ 80`, and is left as the aggregated
slice otherwise; 80 of 100 lines collapses while 79 of 100 does not. -/
theorem collapse_applies (classified : Nat → List SectionAssignment) (sections : List Section)
    (agents0 : List AgentDomain) (htot : 0 < totalLineCount sections)
    (hex : ∃ ag ∈ agentsOrDefault agents0,
      clearsGuard (mapGet (aggregateSorted classified sections agents0) ag.name).TotalPriorityLines
        (totalLineCount sections) = true) :
    (buildResult classified sections agents0).Status = statusSuccess ∧
    (∀ ag ∈ agentsOrDefault agents0,
      mapGet (buildResult classified sections agents0).SlicingMap ag.name =
        if collapses (mapGet (aggregateSorted classified sections agents0) ag.name).TotalPriorityLines
            (totalLineCount sections) = true
        then ⟨sections.map (·.id), [], totalLineCount sections, 0⟩
        else mapGet (aggregateSorted classified sections agents0) ag.name) ∧
    collapses 80 100 = true ∧ collapses 79 100 = false := by
  have htz : ¬ (totalLineCount sections = 0) := by omega
  have hany : ((agentsOrDefault agents0).any (fun ag =>
      clearsGuard (mapGet (aggregateSorted classified sections agents0) ag.name).TotalPriorityLines
        (totalLineCount sections))) = true := by
    rw [List.any_eq_true]
    obtain ⟨ag, hag, hc⟩ := hex
    exact ⟨ag, hag, hc⟩
  have hmap : (buildResult classified sections agents0).SlicingMap =
      (agentsOrDefault agents0).foldl
        (collapseStep (sections.map (·.id)) (totalLineCount sections))
        (aggregateSorted classified sections agents0) := by
    simp [buildResult, htz, hany]
  refine ⟨by simp [buildResult, htz, hany], ?_, by decide, by decide⟩
  intro ag hag
  rw [hmap]
  have hfold := collapse_foldl_get (agentsOrDefault agents0) (sections.map (·.id))
    (totalLineCount sections) htot (aggregateSorted classified sections agents0)
    (aggregateSorted classified sections agents0) (fun _ => false) (by simp) ag.name
  rw [hfold]
  have hmem : (agentsOrDefault agents0).any (fun x => x.name = ag.name) = true := by
    rw [List.any_eq_true]
    exact ⟨ag, hag, by simp⟩
  rw [hmem]
  by_cases hc : collapses
      (mapGet (aggregateSorted classified sections agents0) ag.name).TotalPriorityLines
      (totalLineCount sections) = true
  · rw [hc]
    simp
  · have hcf : collapses
        (mapGet (aggregateSorted classified sections agents0) ag.name).TotalPriorityLines
        (totalLineCount sections) = false := Bool.eq_false_iff.mpr hc
    rw [hcf]
    simp

theorem collapse_applies_witness :
    mapGet ((buildResult
      (fun n => if n = 1 then [⟨"fd-safety", "priority", 9/10⟩]
        else if n = 2 then [⟨"fd-safety", "context", 7/10⟩] else [])
      [⟨1, "A", "", 80⟩, ⟨2, "B", "", 20⟩] []).SlicingMap) "fd-safety" =
      ⟨[1, 2], [], 100, 0⟩ := by
  have h := (collapse_applies
    (fun n => if n = 1 then [⟨"fd-safety", "priority", 9/10⟩]
      else if n = 2 then [⟨"fd-safety", "context", 7/10⟩] else [])
    [⟨1, "A", "", 80⟩, ⟨2, "B", "", 20⟩] [] (by decide) (by decide)).2.1
    ⟨"fd-safety", "Safety, trust, policy risk, abuse, and compliance impact."⟩ (by decide)
  exact h.trans (by decide)

/-! ### Sorting lemmas -/

lemma insertSorted_perm (x : Nat) (l : List Nat) : (insertSorted x l).Perm (x :: l) := by
  induction l with
  | nil => exact List.Perm.refl _
  | cons y ys ih =>
    by_cases h : x ≤ y
    · rw [insertSorted, if_pos h]
    · rw [insertSorted, if_neg h]
      exact (ih.cons y).trans (List.Perm.swap x y ys)

lemma sortInts_perm (l : List Nat) : (sortInts l).Perm l := by
  induction l with
  | nil => exact List.Perm.refl _
  | cons x xs ih => exact (insertSorted_perm x (sortInts xs)).trans (ih.cons x)

lemma mem_sortInts (l : List Nat) (a : Nat) : a ∈ sortInts l ↔ a ∈ l :=
  (sortInts_perm l).mem_iff

lemma nodup_sortInts (l : List Nat) (h : l.Nodup) : (sortInts l).Nodup :=
  ((sortInts_perm l).nodup_iff).mpr h

/-! ### Dispatch of the final slicing map -/

lemma buildResult_slicing (classified : Nat → List SectionAssignment) (sections : List Section)
    (agents0 : List AgentDomain) :
    (buildResult classified sections agents0).SlicingMap =
      aggregateSorted classified sections agents0 ∨
    (0 < totalLineCount sections ∧
      (buildResult classified sections agents0).SlicingMap =
        (agentsOrDefault agents0).foldl
          (collapseStep (sections.map (·.id)) (totalLineCount sections))
          (aggregateSorted classified sections agents0)) := by
  by_cases h0 : totalLineCount sections = 0
  · left
    simp [buildResult, h0]
  · by_cases hg : ((agentsOrDefault agents0).any fun ag =>
        clearsGuard (mapGet (aggregateSorted classified sections agents0) ag.name).TotalPriorityLines
          (totalLineCount sections)) = false
    · left
      simp [buildResult, h0, hg]
    · right
      have hg' : ((agentsOrDefault agents0).any fun ag =>
          clearsGuard (mapGet (aggregateSorted classified sections agents0) ag.name).TotalPriorityLines
            (totalLineCount sections)) = true := by
        revert hg
        cases ((agentsOrDefault agents0).any fun ag =>
          clearsGuard (mapGet (aggregateSorted classified sections agents0) ag.name).TotalPriorityLines
            (totalLineCount sections)) <;> simp
      exact ⟨Nat.pos_of_ne_zero h0, by simp [buildResult, h0, hg']⟩

lemma mapGet_buildResult_char (classified : Nat → List SectionAssignment)
    (sections : List Section) (agents0 : List AgentDomain)
    (hnd : (sections.map (·.id)).Nodup) (a : String) :
    mapGet (buildResult classified sections agents0).SlicingMap a =
      sortSlice (aggSliceSpec classified (allowedAgent (agentsOrDefault agents0)) sections a) ∨
    (0 < totalLineCount sections ∧
      mapGet (buildResult classified sections agents0).SlicingMap a =
        ⟨sections.map (·.id), [], totalLineCount sections, 0⟩) := by
  have hagg : ∀ b, mapGet (aggregateSorted classified sections agents0) b =
      sortSlice (aggSliceSpec classified (allowedAgent (agentsOrDefault agents0)) sections b) := by
    intro b
    rw [aggregateSorted, mapGet_sortSlices,
      aggregate_char classified (allowedAgent (agentsOrDefault agents0)) sections
        (agentsOrDefault agents0) hnd b]
  rcases buildResult_slicing classified sections agents0 with h | ⟨hpos, h⟩
  · left
    rw [h, hagg a]
  · rw [h, collapse_foldl_get (agentsOrDefault agents0) (sections.map (·.id))
      (totalLineCount sections) hpos (aggregateSorted classified sections agents0)
      (aggregateSorted classified sections agents0) (fun _ => false) (by simp) a]
    by_cases hcond : (false || ((agentsOrDefault agents0).any fun ag => decide (ag.name = a)) &&
        collapses (mapGet (aggregateSorted classified sections agents0) a).TotalPriorityLines
          (totalLineCount sections)) = true
    · right
      exact ⟨hpos, by rw [if_pos hcond]⟩
    · left
      rw [if_neg hcond, hagg a]

/-! ### Sum lemmas -/

lemma foldl_add_lineCount (l : List Section) :
    ∀ n, l.foldl (fun acc s => acc + s.lineCount) n = n + sumLineCounts l := by
  induction l with
  | nil => intro n; simp [sumLineCounts]
  | cons s rest ih =>
    intro n
    rw [List.foldl_cons, ih]
    simp [sumLineCounts]
    omega

lemma totalLineCount_eq_sum (sections : List Section) :
    totalLineCount sections = sumLineCounts sections := by
  have := foldl_add_lineCount sections 0
  simpa [totalLineCount] using this

lemma mem_map_id_filter (sections : List Section) (hnd : (sections.map (·.id)).Nodup)
    (p : Section → Bool) (s : Section) (hs : s ∈ sections) :
    (s.id ∈ (sections.filter p).map (·.id)) ↔ p s = true := by
  constructor
  · intro h
    obtain ⟨t, ht, hte⟩ := List.mem_map.mp h
    have hts : t ∈ sections := List.mem_of_mem_filter ht
    have : t = s := List.inj_on_of_nodup_map hnd hts hs hte
    rw [← this]
    exact List.of_mem_filter ht
  · intro h
    exact List.mem_map_of_mem _ (List.mem_filter.mpr ⟨hs, h⟩)

lemma filter_mem_sorted (sections : List Section) (hnd : (sections.map (·.id)).Nodup)
    (p : Section → Bool) :
    sections.filter (fun s => decide (s.id ∈ sortInts ((sections.filter p).map (·.id)))) =
      sections.filter p := by
  apply List.filter_congr
  intro s hs
  have hiff : (s.id ∈ sortInts ((sections.filter p).map (·.id))) ↔ p s = true :=
    (mem_sortInts _ s.id).trans (mem_map_id_filter sections hnd p s hs)
  rw [decide_eq_decide.mpr hiff]
  exact Bool.decide_coe (p s)

/-- C9: every reviewer slice of a classification result, collapse applied
or not, has its line-count totals equal to the exact sum of the line counts
of the sections whose ids appear in the corresponding id list (section ids
are unique within one extraction run). -/
theorem slice_totals_exact (classified : Nat → List SectionAssignment)
    (sections : List Section) (agents0 : List AgentDomain)
    (hnd : (sections.map (·.id)).Nodup) (a : String) :
    (mapGet (buildResult classified sections agents0).SlicingMap a).TotalPriorityLines =
      sumLineCounts (sections.filter (fun s => decide (s.id ∈
        (mapGet (buildResult classified sections agents0).SlicingMap a).PrioritySections))) ∧
    (mapGet (buildResult classified sections agents0).SlicingMap a).TotalContextLines =
      sumLineCounts (sections.filter (fun s => decide (s.id ∈
        (mapGet (buildResult classified sections agents0).SlicingMap a).ContextSections))) := by
  rcases mapGet_buildResult_char classified sections agents0 hnd a with h | ⟨_, h⟩
  · rw [h]
    dsimp only [sortSlice, aggSliceSpec]
    constructor
    · rw [filter_mem_sorted sections hnd
        (hasLabel classified (allowedAgent (agentsOrDefault agents0)) a "priority")]
    · rw [filter_mem_sorted sections hnd
        (hasLabel classified (allowedAgent (agentsOrDefault agents0)) a "context")]
  · rw [h]
    dsimp only
    constructor
    · have hfe : sections.filter (fun s => decide (s.id ∈ sections.map (·.id))) = sections :=
        List.filter_eq_self.mpr (fun s hs => decide_eq_true (List.mem_map_of_mem _ hs))
      rw [hfe, totalLineCount_eq_sum]
    · have hfe : sections.filter (fun s => decide (s.id ∈ ([] : List Nat))) = [] := by
        rw [List.filter_eq_nil_iff]
        intro s hs
        simp
      rw [hfe]
      rfl

theorem slice_totals_exact_witness :
    (mapGet (buildResult
        (fun n => if n = 1 then [⟨"fd-safety", "priority", 1⟩] else [])
        [⟨1, "A", "", 5⟩, ⟨2, "B", "", 45⟩] []).SlicingMap "fd-safety").TotalPriorityLines =
      sumLineCounts ([⟨1, "A", "", 5⟩, ⟨2, "B", "", 45⟩].filter (fun s => decide (s.id ∈
        (mapGet (buildResult
          (fun n => if n = 1 then [⟨"fd-safety", "priority", 1⟩] else [])
          [⟨1, "A", "", 5⟩, ⟨2, "B", "", 45⟩] []).SlicingMap "fd-safety").PrioritySections))) :=
  (slice_totals_exact
    (fun n => if n = 1 then [⟨"fd-safety", "priority", 1⟩] else [])
    [⟨1, "A", "", 5⟩, ⟨2, "B", "", 45⟩] [] (by decide) "fd-safety").1

/-- C3 counterexample: when the oracle assigns the same section to the
same reviewer under both relevance labels, the section id lands in both of
that reviewer's lists, so the priority and context lists are not disjoint.
Here section 1 (20 of 100 lines, so no collapse) carries both labels for
fd-safety and appears in both lists of the returned slicing map. -/
theorem slice_lists_overlap_cex :
    1 ∈ (mapGet (buildResult
        (fun n => if n = 1 then
          [⟨"fd-safety", "priority", 1⟩, ⟨"fd-safety", "context", 1⟩] else [])
        [⟨1, "A", "", 20⟩, ⟨2, "B", "", 80⟩] []).SlicingMap "fd-safety").PrioritySections ∧
    1 ∈ (mapGet (buildResult
        (fun n => if n = 1 then
          [⟨"fd-safety", "priority", 1⟩, ⟨"fd-safety", "context", 1⟩] else [])
        [⟨1, "A", "", 20⟩, ⟨2, "B", "", 80⟩] []).SlicingMap "fd-safety").ContextSections := by
  constructor <;> decide

/-- C3 (amended): each reviewer's priority and context lists are
duplicate-free even under duplicate oracle assignments for the same
(section, reviewer, relevance) triple, and the two lists are disjoint
provided no section is assigned to that reviewer under both relevance
labels; a section carrying both labels for the same reviewer appears in
both lists (see the counterexample). -/
theorem slice_lists_disjoint (classified : Nat → List SectionAssignment)
    (sections : List Section) (agents0 : List AgentDomain)
    (hnd : (sections.map (·.id)).Nodup) (a : String)
    (hnb : ∀ s ∈ sections,
      ¬ (hasLabel classified (allowedAgent (agentsOrDefault agents0)) a "priority" s = true ∧
         hasLabel classified (allowedAgent (agentsOrDefault agents0)) a "context" s = true)) :
    (∀ i ∈ (mapGet (buildResult classified sections agents0).SlicingMap a).PrioritySections,
       i ∉ (mapGet (buildResult classified sections agents0).SlicingMap a).ContextSections) ∧
    (mapGet (buildResult classified sections agents0).SlicingMap a).PrioritySections.Nodup ∧
    (mapGet (buildResult classified sections agents0).SlicingMap a).ContextSections.Nodup := by
  have hsubl : ∀ (p : Section → Bool), ((sections.filter p).map (·.id)).Nodup := by
    intro p
    exact hnd.sublist (List.Sublist.map _ (List.filter_sublist sections))
  rcases mapGet_buildResult_char classified sections agents0 hnd a with h | ⟨_, h⟩
  · rw [h]
    dsimp only [sortSlice, aggSliceSpec]
    refine ⟨?_, nodup_sortInts _ (hsubl _), nodup_sortInts _ (hsubl _)⟩
    intro i hiP hiC
    rw [mem_sortInts] at hiP hiC
    obtain ⟨s, hsf, hsid⟩ := List.mem_map.mp hiP
    obtain ⟨t, htf, htid⟩ := List.mem_map.mp hiC
    have hss : s ∈ sections := List.mem_of_mem_filter hsf
    have hts : t ∈ sections := List.mem_of_mem_filter htf
    have hst : t = s := List.inj_on_of_nodup_map hnd hts hss (htid.trans hsid.symm)
    exact hnb s hss ⟨List.of_mem_filter hsf, hst ▸ List.of_mem_filter htf⟩
  · rw [h]
    dsimp only
    exact ⟨fun i _ hc => by simp at hc, hnd, List.nodup_nil⟩

theorem slice_lists_disjoint_witness :
    1 ∉ (mapGet (buildResult
        (fun n => if n = 1 then [⟨"fd-safety", "priority", 1⟩]
          else [⟨"fd-safety", "context", 1⟩])
        [⟨1, "A", "", 20⟩, ⟨2, "B", "", 80⟩] []).SlicingMap "fd-safety").ContextSections :=
  (slice_lists_disjoint
    (fun n => if n = 1 then [⟨"fd-safety", "priority", 1⟩]
      else [⟨"fd-safety", "context", 1⟩])
    [⟨1, "A", "", 20⟩, ⟨2, "B", "", 80⟩] [] (by decide) "fd-safety" (by decide)).1
    1 (by decide)

/-- C10: assignments naming a fixed cross-cutting agent pass the
normalization gate (the allowed set includes the cross-cutting names) and
accumulate a slice in the returned map even though the name is not in the
configured roster; the domain-mismatch guard and full-document collapse
iterate only the configured roster, so a cross-cutting agent's final slice
is exactly its sorted aggregated slice, untouched by both rules. -/
theorem crosscutting_untouched (classified : Nat → List SectionAssignment)
    (sections : List Section) (agents0 : List AgentDomain) (cc : String)
    (hnd : (sections.map (·.id)).Nodup)
    (hcc : cc ∈ CrossCuttingAgents)
    (hnc : ∀ ag ∈ agentsOrDefault agents0, ag.name ≠ cc) :
    allowedAgent (agentsOrDefault agents0) cc = true ∧
    mapGet (buildResult classified sections agents0).SlicingMap cc =
      sortSlice (aggSliceSpec classified (allowedAgent (agentsOrDefault agents0)) sections cc) := by
  constructor
  · simp [allowedAgent]
    exact Or.inr hcc
  · have hagg : mapGet (aggregateSorted classified sections agents0) cc =
        sortSlice (aggSliceSpec classified (allowedAgent (agentsOrDefault agents0)) sections cc) := by
      rw [aggregateSorted, mapGet_sortSlices,
        aggregate_char classified (allowedAgent (agentsOrDefault agents0)) sections
          (agentsOrDefault agents0) hnd cc]
    rcases buildResult_slicing classified sections agents0 with h | ⟨hpos, h⟩
    · rw [h, hagg]
    · rw [h, collapse_foldl_get (agentsOrDefault agents0) (sections.map (·.id))
        (totalLineCount sections) hpos (aggregateSorted classified sections agents0)
        (aggregateSorted classified sections agents0) (fun _ => false) (by simp) cc]
      have hany : ((agentsOrDefault agents0).any fun ag => decide (ag.name = cc)) = false := by
        rw [List.any_eq_false]
        intro ag hag
        simp [hnc ag hag]
      rw [hany]
      simp only [Bool.false_and, Bool.or_false]
      rw [if_neg (by simp), hagg]

theorem crosscutting_untouched_witness :
    mapGet ((buildResult
      (fun n => if n = 1 then [⟨"fd-architecture", "priority", 1⟩]
        else if n = 2 then [⟨"fd-safety", "priority", 1⟩] else [])
      [⟨1, "A", "", 10⟩, ⟨2, "B", "", 90⟩] []).SlicingMap) "fd-architecture" =
      ⟨[1], [], 10, 0⟩ := by
  have h := (crosscutting_untouched
    (fun n => if n = 1 then [⟨"fd-architecture", "priority", 1⟩]
      else if n = 2 then [⟨"fd-safety", "priority", 1⟩] else [])
    [⟨1, "A", "", 10⟩, ⟨2, "B", "", 90⟩] [] "fd-architecture"
    (by decide) (by decide) (by decide)).2
  exact h.trans (by decide)

/-- C8: a lookup that finds an entry returns the stored result exactly
when the entry's age is within the one-hour TTL and every tracked file
still exists with a modification time not later than the captured one; a
valid hit returns a copy of the result and bumps the hit counter leaving
the map unchanged, while an invalid entry is deleted during the same
lookup and counted as a miss — so advancing any tracked file's
modification time turns the next lookup into a miss. -/
theorem cacheGet_valid_iff (st : CacheState) (key : String) (now : Int)
    (stat : String → Option Int) (entry : CacheEntry)
    (hfound : cacheLookup st.queryCache key = some entry) :
    ((cacheGet st key now stat).1 = some entry.result ↔
      (now - entry.createdAt ≤ cacheTTL ∧
       ∀ pm ∈ entry.mtimes, ∃ cur, stat pm.1 = some cur ∧ cur ≤ pm.2)) ∧
    ((now - entry.createdAt ≤ cacheTTL ∧
       ∀ pm ∈ entry.mtimes, ∃ cur, stat pm.1 = some cur ∧ cur ≤ pm.2) →
      cacheGet st key now stat =
        (some entry.result, { st with cacheHits := st.cacheHits + 1 })) ∧
    (¬ (now - entry.createdAt ≤ cacheTTL ∧
       ∀ pm ∈ entry.mtimes, ∃ cur, stat pm.1 = some cur ∧ cur ≤ pm.2) →
      cacheGet st key now stat =
        (none, { st with queryCache := cacheErase st.queryCache key,
                         cacheMisses := st.cacheMisses + 1 })) := by
  have hvalid : (expired now entry || filesChanged stat entry) = false ↔
      (now - entry.createdAt ≤ cacheTTL ∧
       ∀ pm ∈ entry.mtimes, ∃ cur, stat pm.1 = some cur ∧ cur ≤ pm.2) := by
    rw [Bool.or_eq_false_iff]
    constructor
    · rintro ⟨he, hf⟩
      refine ⟨?_, ?_⟩
      · have h1 : ¬ (cacheTTL < now - entry.createdAt) := by
          simpa [expired] using he
        omega
      · intro pm hpm
        have h2 : ∀ x ∈ entry.mtimes,
            ¬ ((match stat x.1 with
                | none => true
                | some cur => decide (x.2 < cur)) = true) := by
          simpa [filesChanged, List.any_eq_false] using hf
        have h3 := h2 pm hpm
        cases hst : stat pm.1 with
        | none => rw [hst] at h3; simp at h3
        | some cur =>
          rw [hst] at h3
          simp only [decide_eq_true_eq] at h3
          exact ⟨cur, rfl, by omega⟩
    · rintro ⟨he, hf⟩
      refine ⟨?_, ?_⟩
      · simp only [expired, decide_eq_false_iff_not]
        omega
      · rw [filesChanged, List.any_eq_false]
        intro pm hpm
        obtain ⟨cur, hst, hle⟩ := hf pm hpm
        rw [hst]
        simp only [decide_eq_true_eq]
        omega
  refine ⟨?_, ?_, ?_⟩
  · constructor
    · intro hres
      by_cases hc : (expired now entry || filesChanged stat entry) = true
      · exfalso
        simp only [cacheGet, hfound, hc, if_pos] at hres
        exact Option.noConfusion hres
      · exact hvalid.mp (Bool.eq_false_iff.mpr hc)
    · intro hv
      have hc : (expired now entry || filesChanged stat entry) = false :=
        hvalid.mpr hv
      simp [cacheGet, hfound, hc]
  · intro hv
    have hc : (expired now entry || filesChanged stat entry) = false :=
      hvalid.mpr hv
    simp [cacheGet, hfound, hc]
  · intro hv
    have hc : ¬ ((expired now entry || filesChanged stat entry) = false) :=
      fun hf => hv (hvalid.mp hf)
    have hc' : (expired now entry || filesChanged stat entry) = true := by
      revert hc
      cases (expired now entry || filesChanged stat entry) <;> simp
    simp [cacheGet, hfound, hc']

theorem cacheGet_valid_iff_witness :
    (cacheGet ⟨[("k", ⟨⟨"success", "ans", ["f"], 3, "answer", ""⟩, [("f", 7)], 100⟩)], 0, 0⟩
        "k" 200 (fun p => if p = "f" then some 7 else none)).1 =
      some ⟨"success", "ans", ["f"], 3, "answer", ""⟩ :=
  ((cacheGet_valid_iff
    ⟨[("k", ⟨⟨"success", "ans", ["f"], 3, "answer", ""⟩, [("f", 7)], 100⟩)], 0, 0⟩
    "k" 200 (fun p => if p = "f" then some 7 else none)
    ⟨⟨"success", "ans", ["f"], 3, "answer", ""⟩, [("f", 7)], 100⟩ (by decide)).1).mpr
    (by constructor
        · decide
        · intro pm hpm
          have hpm2 : pm = ("f", 7) := by simpa using hpm
          subst hpm2
          exact ⟨7, by decide, by decide⟩)

/-! ### Split/join lemmas for the fence-stripping analysis -/

lemma strData_append (a b : String) : (a ++ b).data = a.data ++ b.data := by
  cases a
  cases b
  rfl

lemma charSplit_ne_nil (cs : List Char) : charSplit cs ≠ [] := by
  cases cs with
  | nil => simp [charSplit]
  | cons c rest =>
    rw [charSplit]
    cases h : charSplit rest with
    | nil => simp
    | cons hh tt => by_cases hc : c = '\n' <;> simp [hc]

lemma charSplit_no_nl (cs : List Char) (h : ∀ c ∈ cs, c ≠ '\n') : charSplit cs = [cs] := by
  induction cs with
  | nil => rfl
  | cons c rest ih =>
    have hc : c ≠ '\n' := h c (by simp)
    rw [charSplit, ih (fun x hx => h x (by simp [hx]))]
    simp [hc]

lemma charSplit_append_nl (xs cs : List Char) (h : ∀ c ∈ xs, c ≠ '\n') :
    charSplit (xs ++ '\n' :: cs) = xs :: charSplit cs := by
  induction xs with
  | nil =>
    rw [List.nil_append, charSplit]
    cases hcs : charSplit cs with
    | nil => exact absurd hcs (charSplit_ne_nil cs)
    | cons hh tt => simp
  | cons x xs2 ih =>
    have hx : x ≠ '\n' := h x (by simp)
    rw [List.cons_append, charSplit, ih (fun c hc => h c (by simp [hc]))]
    simp [hx]

lemma charSplit_charJoin (L : List (List Char)) (hne : L ≠ [])
    (h : ∀ l ∈ L, ∀ c ∈ l, c ≠ '\n') : charSplit (charJoin L) = L := by
  induction L with
  | nil => exact absurd rfl hne
  | cons x t ih =>
    cases t with
    | nil =>
      rw [charJoin]
      exact charSplit_no_nl x (h x (by simp))
    | cons y t2 =>
      rw [charJoin, charSplit_append_nl x _ (h x (by simp)),
        ih (by simp) (fun l hl => h l (by simp [hl]))]

lemma goSplitNl_joinNl (L : List String) (hne : L ≠ [])
    (h : ∀ l ∈ L, ∀ c ∈ l.data, c ≠ '\n') : goSplitNl (joinNl L) = L := by
  have hdata : (joinNl L).data = charJoin (L.map String.data) := rfl
  rw [goSplitNl, hdata, charSplit_charJoin (L.map String.data)
    (by simpa using hne)
    (by intro l hl c hc
        obtain ⟨s, hs, hse⟩ := List.mem_map.mp hl
        exact h s hs c (hse ▸ hc))]
  rw [List.map_map]
  have : (fun cs => (⟨cs⟩ : String)) ∘ String.data = id := by
    funext s
    rfl
  rw [this, List.map_id]

lemma charJoin_concat (L : List (List Char)) (x : List Char) (hne : L ≠ []) :
    charJoin (L ++ [x]) = charJoin L ++ '\n' :: x := by
  induction L with
  | nil => exact absurd rfl hne
  | cons y t ih =>
    cases t with
    | nil => rfl
    | cons z t2 =>
      have h1 : charJoin ((y :: z :: t2) ++ [x]) =
          y ++ '\n' :: charJoin ((z :: t2) ++ [x]) := rfl
      have h2 : charJoin (y :: z :: t2) = y ++ '\n' :: charJoin (z :: t2) := rfl
      rw [h1, h2, ih (by simp)]
      simp [List.append_assoc]

lemma goTrimSpace_fixed (cs : List Char) (c1 c2 : Char) (mid mid2 : List Char)
    (h1 : cs = c1 :: mid) (h2 : cs.reverse = c2 :: mid2)
    (hc1 : goIsSpace c1 = false) (hc2 : goIsSpace c2 = false) :
    goTrimSpace ⟨cs⟩ = ⟨cs⟩ := by
  show (⟨List.reverse (List.dropWhile goIsSpace
    (List.reverse (List.dropWhile goIsSpace cs)))⟩ : String) = ⟨cs⟩
  rw [h1, List.dropWhile_cons, hc1]
  simp only [Bool.false_eq_true, if_false]
  rw [← h1, h2, List.dropWhile_cons, hc2]
  simp only [Bool.false_eq_true, if_false]
  rw [← h2, List.reverse_reverse]

lemma goStartsWith_backticks (s : String) (rest : List Char)
    (h : s.data = '`' :: '`' :: '`' :: rest) : goStartsWith s "```" = true := by
  show listIsPre ("```".data) s.data = true
  rw [h]
  rfl

/-- C5 counterexample: a tilde-fenced payload is returned unchanged by
`stripCodeFences` (only backtick fences are recognised), so it is not
unwrapped the way a backtick-fenced payload is. -/
theorem strip_fences_tilde_cex :
    stripCodeFences "~~~\nhello\n~~~" = "~~~\nhello\n~~~" ∧
    stripCodeFences "~~~\nhello\n~~~" ≠ "hello" := by
  constructor <;> decide

/-- C5 (amended): `stripCodeFences` unwraps only backtick fences: for a
payload wrapped between an opening line of three backticks plus an info
string and a closing line of three backticks, it removes the opening line,
trailing blank lines, and the closing line, then trims; an output whose
trimmed text starts with tildes is returned with surrounding whitespace
trimmed only, never unwrapped. -/
theorem strip_fences_amended :
    (∀ raw : String, goStartsWith (goTrimSpace raw) "~~~" = true →
       stripCodeFences raw = goTrimSpace raw) ∧
    (∀ info : String, ∀ body : List String,
       (∀ c ∈ info.data, c ≠ '\n') →
       (∀ l ∈ body, ∀ c ∈ l.data, c ≠ '\n') →
       stripCodeFences (joinNl (("```" ++ info) :: body ++ ["```"])) =
         goTrimSpace (joinNl body)) := by
  constructor
  · intro raw htilde
    have hnb : goStartsWith (goTrimSpace raw) "```" = false := by
      cases hdd : (goTrimSpace raw).data with
      | nil =>
        exfalso
        have h1 : listIsPre ("~~~".data) (goTrimSpace raw).data = true := htilde
        rw [hdd] at h1
        exact absurd h1 (by decide)
      | cons c rest =>
        have h1 : listIsPre ("~~~".data) (goTrimSpace raw).data = true := htilde
        rw [hdd] at h1
        have h2 : (decide ('~' = c) && listIsPre ['~', '~'] rest) = true := h1
        have hc : c = '~' := by
          have h3 : decide ('~' = c) = true := by
            cases hdec : decide ('~' = c)
            · rw [hdec, Bool.false_and] at h2
              exact absurd h2 (by decide)
            · rfl
          exact (of_decide_eq_true h3).symm
        show listIsPre ("```".data) (goTrimSpace raw).data = false
        rw [hdd, hc]
        show (decide ('`' = '~') && listIsPre ['`', '`'] rest) = false
        rw [show decide ('`' = '~') = false from by decide, Bool.false_and]
    rw [stripCodeFences]
    simp [hnb]
  · intro info body hinfo hbody
    have hfd : ("```" ++ info).data = '`' :: '`' :: '`' :: info.data := by
      rw [strData_append]
      rfl
    have hfirstnl : ∀ c ∈ ("```" ++ info).data, c ≠ '\n' := by
      rw [hfd]
      intro c hc
      simp only [List.mem_cons] at hc
      rcases hc with h | h | h | h
      · subst h; decide
      · subst h; decide
      · subst h; decide
      · exact hinfo c h
    have hallnl : ∀ l ∈ ("```" ++ info) :: body ++ ["```"], ∀ c ∈ l.data, c ≠ '\n' := by
      intro l hl
      rcases List.mem_cons.mp hl with h | h
      · subst h; exact hfirstnl
      · rcases List.mem_append.mp h with h2 | h2
        · exact hbody l h2
        · have hl3 : l = "```" := by simpa using h2
          subst hl3
          decide
    have hdata : (joinNl (("```" ++ info) :: body ++ ["```"])).data =
        charJoin ((("```" ++ info) :: body).map String.data) ++ '\n' :: ['`', '`', '`'] := by
      show charJoin (((("```" ++ info) :: body) ++ ["```"]).map String.data) = _
      rw [List.map_append,
        show (["```"] : List String).map String.data = [("```" : String).data] from rfl,
        charJoin_concat _ _ (by simp)]
    have hhead : ∃ t, charJoin ((("```" ++ info) :: body).map String.data) =
        '`' :: '`' :: '`' :: t := by
      cases body with
      | nil =>
        refine ⟨info.data, ?_⟩
        have h1 : charJoin ((("```" ++ info) :: []).map String.data) =
            ("```" ++ info).data := rfl
        rw [h1, hfd]
      | cons b bt =>
        refine ⟨info.data ++ '\n' :: charJoin ((b :: bt).map String.data), ?_⟩
        have h1 : charJoin ((("```" ++ info) :: b :: bt).map String.data) =
            ("```" ++ info).data ++ '\n' :: charJoin ((b :: bt).map String.data) := rfl
        rw [h1, hfd]
        rfl
    obtain ⟨t, hhead⟩ := hhead
    have htrim : goTrimSpace (joinNl (("```" ++ info) :: body ++ ["```"])) =
        joinNl (("```" ++ info) :: body ++ ["```"]) := by
      have h1 : (joinNl (("```" ++ info) :: body ++ ["```"])).data =
          '`' :: ('`' :: '`' :: t ++ '\n' :: ['`', '`', '`']) := by
        rw [hdata, hhead]
        rfl
      have h2 : (joinNl (("```" ++ info) :: body ++ ["```"])).data.reverse =
          '`' :: ('`' :: '`' :: '\n' :: ('`' :: '`' :: '`' :: t).reverse) := by
        rw [hdata, hhead, List.reverse_append]
        rfl
      have := goTrimSpace_fixed (joinNl (("```" ++ info) :: body ++ ["```"])).data
        '`' '`' _ _ h1 h2 (by decide) (by decide)
      simpa using this
    have hstart : goStartsWith (goTrimSpace (joinNl (("```" ++ info) :: body ++ ["```"]))) "```" =
        true := by
      rw [htrim]
      exact goStartsWith_backticks _ (t ++ '\n' :: ['`', '`', '`']) (by rw [hdata, hhead]; rfl)
    have hsplit : goSplitNl (goTrimSpace (joinNl (("```" ++ info) :: body ++ ["```"]))) =
        ("```" ++ info) :: body ++ ["```"] := by
      rw [htrim]
      exact goSplitNl_joinNl _ (by simp) hallnl
    rw [stripCodeFences]
    simp only [hstart, Bool.true_eq_false, if_false, hsplit]
    have hne2 : ¬ (("```" ++ info) :: body ++ ["```"] = []) := by simp
    rw [if_neg hne2]
    have hdrop : (("```" ++ info) :: body ++ ["```"]).drop 1 = body ++ ["```"] := rfl
    rw [hdrop]
    have hrev : (body ++ ["```"]).reverse.dropWhile (fun s => goTrimSpace s = "") =
        "```" :: body.reverse := by
      rw [List.reverse_append, show (["```"] : List String).reverse = ["```"] from rfl,
        List.singleton_append, List.dropWhile_cons]
      simp only [show ¬ (goTrimSpace "```" = "") by decide, if_neg, decide_eq_true_eq,
        if_false]
    rw [hrev]
    have hrev2 : ("```" :: body.reverse).reverse = body ++ ["```"] := by
      rw [List.reverse_cons, List.reverse_reverse]
    rw [hrev2]
    rw [List.getLast?_concat]
    simp only [show goStartsWith (goTrimSpace "```") "```" = true by decide, if_pos]
    rw [List.dropLast_concat]

theorem strip_fences_amended_witness :
    stripCodeFences (joinNl ["```json", "hello", "```"]) = goTrimSpace (joinNl ["hello"]) := by
  have h := strip_fences_amended.2 "json" ["hello"] (by decide) (by decide)
  exact h

end Interserve
